import Mathlib

/-!
Shallow embedding of `src/oncall_export.py` (pagerduty-oncall-exporter).

The core pipeline of the script is
  `oncalls_to_timetable` : raw on-call records -> timestamp-keyed event dict,
  `timetable_normalize`  : sorted, forward-filled snapshot list,
  `create_schedule`      : schedule rows with timezone-converted display times.

Python dictionaries keyed by timestamp are modelled as association lists with
unique keys (`Timetable`); `dict.setdefault(..).update(..)` becomes `tdUpdate`.
A role key that is absent from a timestamp's dict is `none`; a role key that is
present with value `None` (an explicit clear) is `some none`; a set is
`some (some uid)`.

Python code that raises an uncaught exception (`KeyError` from negative-index
lookback in `timetable_normalize` when the first snapshot lacks a role key,
`KeyError`/`TypeError` from `users_dict[user_id]` / missing phone contact in
`get_phone`) is modelled by returning `none` from the corresponding function.

Timestamps are ISO-8601 UTC strings in the script, ordered lexicographically,
which coincides with chronological order; they are modelled as `Int` seconds.
The timezone conversion `utc_to_local` is modelled as an abstract conversion
function `loc : Int → Int` passed to `create_schedule`.
-/

inductive Role where
  | primary
  | secondary
deriving DecidableEq, Repr

/-- Per-timestamp event record: for each role, `none` if the role key is absent
at this timestamp, `some v` if the dict holds value `v` (`v = none` is an
explicit clear, `v = some uid` an explicit set). -/
structure RoleVals where
  primary : Option (Option Nat)
  secondary : Option (Option Nat)
deriving DecidableEq, Repr

def RoleVals.getRole (v : RoleVals) : Role → Option (Option Nat)
  | Role.primary => v.primary
  | Role.secondary => v.secondary

def RoleVals.setRole (v : RoleVals) : Role → Option Nat → RoleVals
  | Role.primary, x => ⟨some x, v.secondary⟩
  | Role.secondary, x => ⟨v.primary, some x⟩

/-- One record of the `oncalls` list returned by the PagerDuty API, restricted
to the fields the pipeline reads. -/
structure Oncall where
  escalation_level : Nat
  user_id : Nat
  start : Int
  end_ : Int
deriving DecidableEq, Repr

/-- The `roles_map` dict `{1: 'primary', 2: 'secondary'}` read with `.get(..., None)`. -/
def roles_map (n : Nat) : Option Role :=
  if n = 1 then some Role.primary
  else if n = 2 then some Role.secondary
  else none

/-- Model of `timetable_dict`: a Python dict keyed by timestamp, as an association list
with unique keys (insertion-ordered, like a Python dict). -/
abbrev Timetable := List (Int × RoleVals)

/-- Model of `timetable_dict.setdefault(t, ...).update(...)` writing value `x` for role `r`. -/
def tdUpdate (t : Int) (r : Role) (x : Option Nat) : Timetable → Timetable
  | [] => [(t, RoleVals.setRole ⟨none, none⟩ r x)]
  | (t', v) :: rest =>
      if t' = t then (t', v.setRole r x) :: rest
      else (t', v) :: tdUpdate t r x rest

/-- One iteration of the `for oncall in oncalls_list` loop of
`oncalls_to_timetable`: ignore untracked escalation levels, otherwise write a
set at `start` and then a clear at `end`. -/
def applyOncall (td : Timetable) (oc : Oncall) : Timetable :=
  match roles_map oc.escalation_level with
  | some r => tdUpdate oc.end_ r none (tdUpdate oc.start r (some oc.user_id) td)
  | none => td

/-- Function `oncalls_to_timetable` of the script. -/
def oncalls_to_timetable (l : List Oncall) : Timetable :=
  l.foldl applyOncall []

def tdKeys (td : Timetable) : List Int := td.map Prod.fst

/-- Lookup `timetable_dict[t]` (with a dummy default; only used at present keys). -/
def tdGet (td : Timetable) (t : Int) : RoleVals :=
  match td with
  | [] => ⟨none, none⟩
  | (t', v) :: rest => if t' = t then v else tdGet rest t

/-- Model of `sorted(timetable_dict)`: the keys in ascending order. -/
def sortKeys (l : List Int) : List Int := List.insertionSort (· ≤ ·) l

/-- A fully resolved snapshot value: occupant per role (`none` = vacant). -/
structure Resolved where
  primary : Option Nat
  secondary : Option Nat
deriving DecidableEq, Repr

/-- The `cnt ≥ 1` iterations of the loop in `timetable_normalize`: each role
key missing at the current timestamp is copied from the previous (already
resolved) record. -/
def normRest (g : Int → RoleVals) (prev : Resolved) : List Int → List (Int × Resolved)
  | [] => []
  | t :: ts =>
      let cur : Resolved :=
        ⟨((g t).primary).getD prev.primary, ((g t).secondary).getD prev.secondary⟩
      (t, cur) :: normRest g cur ts

/-- The loop of `timetable_normalize`. At `cnt = 0` the Python code looks back
at `timetable_list[-1]`, i.e. at the very record being filled, so any role key
missing from the first snapshot raises `KeyError` — modelled as `none`. -/
def normAux (g : Int → RoleVals) : List Int → Option (List (Int × Resolved))
  | [] => some []
  | t :: ts =>
      match (g t).primary, (g t).secondary with
      | some p, some s => some ((t, ⟨p, s⟩) :: normRest g ⟨p, s⟩ ts)
      | _, _ => none

/-- Function `timetable_normalize` of the script. -/
def timetable_normalize (td : Timetable) : Option (List (Int × Resolved)) :=
  normAux (tdGet td) (sortKeys (tdKeys td))

/-- One entry of a user's `contact_methods` list. -/
structure ContactMethod where
  type_ : String
  country_code : String
  address : String
deriving DecidableEq, Repr

/-- One entry of `users_dict`. -/
structure User where
  contact_methods : List ContactMethod
  summary : String
deriving DecidableEq, Repr

abbrev UsersDict := List (Nat × User)

def usersGet (users : UsersDict) (uid : Nat) : Option User :=
  match users with
  | [] => none
  | (i, u) :: rest => if i = uid then some u else usersGet rest uid

/-- Function `get_phone` of the script. `users_dict[user_id]` raises `KeyError` when
`user_id` is unknown or `None` (a vacant occupant passed through), and
subscripting a missing phone contact raises `TypeError`; all modelled `none`. -/
def get_phone (users : UsersDict) (uid : Option Nat) : Option String :=
  match uid with
  | none => none
  | some u =>
      match usersGet users u with
      | none => none
      | some usr =>
          match usr.contact_methods.find? (fun cm => cm.type_ == "phone_contact_method") with
          | none => none
          | some cm => some ("00" ++ cm.country_code ++ cm.address)

/-- Function `get_username` of the script; same `KeyError` behaviour on lookup. -/
def get_username (users : UsersDict) (uid : Option Nat) : Option String :=
  match uid with
  | none => none
  | some u =>
      match usersGet users u with
      | none => none
      | some usr => some usr.summary

/-- One entry of `schedule_list` (in the script, a 6-element list). -/
structure Row where
  start_local : Int
  end_local : Int
  primary_phone : String
  primary_name : String
  secondary_phone : String
  secondary_name : String
deriving DecidableEq, Repr

/-- The `for i in range(len(timetable_list) - 1)` loop of `create_schedule`:
skip all-vacant rows, decrement the exclusive end by one second, convert both
boundaries with `loc` (= `utc_to_local`), and look up phones and names.  An
exception anywhere loses the whole result (`none`). -/
def emitRows (loc : Int → Int) (users : UsersDict) : List (Int × Resolved) → Option (List Row)
  | (s, occ) :: (e, occ2) :: rest =>
      if occ.primary = none ∧ occ.secondary = none then
        emitRows loc users ((e, occ2) :: rest)
      else
        match get_phone users occ.primary, get_username users occ.primary,
              get_phone users occ.secondary, get_username users occ.secondary,
              emitRows loc users ((e, occ2) :: rest) with
        | some p1, some n1, some p2, some n2, some rest' =>
            some (⟨loc s, loc (e - 1), p1, n1, p2, n2⟩ :: rest')
        | _, _, _, _, _ => none
  | _ => some []

/-- Function `create_schedule` of the script, with the timezone conversion
`utc_to_local` abstracted as `loc`. -/
def create_schedule (loc : Int → Int) (oncalls : List Oncall) (users : UsersDict) :
    Option (List Row) :=
  match timetable_normalize (oncalls_to_timetable oncalls) with
  | some tl => emitRows loc users tl
  | none => none

/-- Candidate row `i` before suppression: span `[tl[i].at, tl[i+1].at)` with
the occupants of snapshot `i`. -/
structure Cand where
  start : Int
  end_ : Int
  occ : Resolved
deriving DecidableEq, Repr

def candidateRows : List (Int × Resolved) → List Cand
  | (s, occ) :: (e, occ2) :: rest => ⟨s, e, occ⟩ :: candidateRows ((e, occ2) :: rest)
  | _ => []

/-- The suppression test of `create_schedule` (negated): keep a candidate row
unless both occupants are vacant. -/
def keepRow (c : Cand) : Bool :=
  !(c.occ.primary == none && c.occ.secondary == none)

def Occupied (c : Cand) : Prop :=
  ¬(c.occ.primary = none ∧ c.occ.secondary = none)

/-- The value the loop body of `oncalls_to_timetable` writes for oncall `oc`
at timestamp `t`, role `r` (the clear at `end` is written after the set at
`start`, so it wins when `start = end`). -/
def ocWrite (oc : Oncall) (t : Int) (r : Role) : Option (Option Nat) :=
  match roles_map oc.escalation_level with
  | some r' =>
      if r' = r then
        if oc.end_ = t then some none
        else if oc.start = t then some (some oc.user_id)
        else none
      else none
  | none => none

/-- The raw `(timestamp, role, value)` events contributed by one oncall. -/
def writesOf (oc : Oncall) : List (Int × Role × Option Nat) :=
  match roles_map oc.escalation_level with
  | some r => [(oc.start, r, some oc.user_id), (oc.end_, r, none)]
  | none => []

def writes : List Oncall → List (Int × Role × Option Nat)
  | [] => []
  | oc :: l => writesOf oc ++ writes l

/-- Right-biased override of per-(timestamp, role) values. -/
def ovr (a b : Option (Option Nat)) : Option (Option Nat) :=
  match a with
  | some v => some v
  | none => b

/-- The value left at `(t, r)` after processing `l` in list order: the write
of the last oncall in `l` that writes `(t, r)`, if any. -/
def lastW : List Oncall → Int → Role → Option (Option Nat)
  | [], _, _ => none
  | oc :: l, t, r => ovr (lastW l t r) (ocWrite oc t r)

/-- No two raw events write different values to the same role at the same
timestamp. -/
def NoConflict (l : List Oncall) : Prop :=
  ∀ w1 ∈ writes l, ∀ w2 ∈ writes l,
    w1.1 = w2.1 → w1.2.1 = w2.2.1 → w1.2.2 = w2.2.2

instance (l : List Oncall) : Decidable (NoConflict l) := by
  unfold NoConflict
  exact inferInstance

def getRole (td : Timetable) (t : Int) (r : Role) : Option (Option Nat) :=
  (tdGet td t).getRole r

/-! ### Lemmas about the row emitter -/

theorem candidateRows_chain :
    ∀ tl : List (Int × Resolved),
      List.Chain' (fun a b => a.end_ = b.start) (candidateRows tl)
  | [] => List.chain'_nil
  | [_] => List.chain'_nil
  | (s, o) :: (e, o2) :: rest => by
      have ih := candidateRows_chain ((e, o2) :: rest)
      rw [candidateRows]
      refine List.chain'_cons'.mpr ⟨?_, ih⟩
      intro y hy
      cases rest with
      | nil => simp [candidateRows] at hy
      | cons z rest2 =>
          cases z with
          | mk e2 o3 =>
              simp [candidateRows] at hy
              subst hy
              rfl

theorem emitRows_cons_eq (loc : Int → Int) (users : UsersDict) (s : Int) (occ : Resolved)
    (e : Int) (occ2 : Resolved) (rest : List (Int × Resolved)) :
    emitRows loc users ((s, occ) :: (e, occ2) :: rest) =
      if occ.primary = none ∧ occ.secondary = none then
        emitRows loc users ((e, occ2) :: rest)
      else
        match get_phone users occ.primary, get_username users occ.primary,
              get_phone users occ.secondary, get_username users occ.secondary,
              emitRows loc users ((e, occ2) :: rest) with
        | some p1, some n1, some p2, some n2, some rest' =>
            some (⟨loc s, loc (e - 1), p1, n1, p2, n2⟩ :: rest')
        | _, _, _, _, _ => none := rfl

theorem keepRow_iff_occupied (c : Cand) : keepRow c = true ↔ Occupied c := by
  simp [keepRow, Occupied]
  tauto

theorem emitRows_forall2 (loc : Int → Int) (users : UsersDict) :
    ∀ (tl : List (Int × Resolved)) (rows : List Row),
      emitRows loc users tl = some rows →
      List.Forall₂ (fun c r => r.start_local = loc c.start ∧ r.end_local = loc (c.end_ - 1))
        ((candidateRows tl).filter keepRow) rows
  | [], rows, h => by
      have h' : some ([] : List Row) = some rows := h
      injection h' with h2
      subst h2
      exact List.Forall₂.nil
  | [x], rows, h => by
      have h' : some ([] : List Row) = some rows := h
      injection h' with h2
      subst h2
      cases x with
      | mk s occ => exact List.Forall₂.nil
  | (s, occ) :: (e, occ2) :: rest, rows, h => by
      have ih := emitRows_forall2 loc users ((e, occ2) :: rest)
      rw [emitRows_cons_eq] at h
      by_cases hv : occ.primary = none ∧ occ.secondary = none
      · rw [if_pos hv] at h
        have hkeep : keepRow ⟨s, e, occ⟩ = false := by
          simp [keepRow, hv.1, hv.2]
        rw [candidateRows, List.filter_cons, hkeep]
        simpa using ih rows h
      · rw [if_neg hv] at h
        have hkeep : keepRow (⟨s, e, occ⟩ : Cand) = true :=
          (keepRow_iff_occupied _).mpr hv
        split at h
        · rename_i p1 n1 p2 n2 rest' hp1 hn1 hp2 hn2 hrest
          injection h with h2
          subst h2
          rw [candidateRows, List.filter_cons, hkeep]
          simp only [if_true]
          exact List.Forall₂.cons ⟨rfl, rfl⟩ (ih rest' hrest)
        · exact absurd h (by simp)

theorem forall2_and_of_mem {α β : Type} {R : α → β → Prop} {Q : α → Prop} :
    ∀ {l : List α} {m : List β}, List.Forall₂ R l m → (∀ a ∈ l, Q a) →
      List.Forall₂ (fun a b => Q a ∧ R a b) l m := by
  intro l m h
  induction h with
  | nil => intro _; exact List.Forall₂.nil
  | @cons a b l' m' hab _ ih =>
      intro hq
      exact List.Forall₂.cons ⟨hq a (List.mem_cons_self a l'), hab⟩
        (ih fun x hx => hq x (List.mem_cons_of_mem a hx))

theorem emitRows_lookups (loc : Int → Int) (users : UsersDict) :
    ∀ (tl : List (Int × Resolved)) (rows : List Row),
      emitRows loc users tl = some rows →
      ∀ c ∈ (candidateRows tl).filter keepRow,
        get_phone users c.occ.primary ≠ none ∧ get_username users c.occ.primary ≠ none ∧
        get_phone users c.occ.secondary ≠ none ∧ get_username users c.occ.secondary ≠ none
  | [], rows, h => by
      intro c hc
      simp [candidateRows] at hc
  | [x], rows, h => by
      intro c hc
      cases x with
      | mk s occ => simp [candidateRows] at hc
  | (s, occ) :: (e, occ2) :: rest, rows, h => by
      have ih := emitRows_lookups loc users ((e, occ2) :: rest)
      rw [emitRows_cons_eq] at h
      by_cases hv : occ.primary = none ∧ occ.secondary = none
      · rw [if_pos hv] at h
        have hkeep : keepRow ⟨s, e, occ⟩ = false := by
          simp [keepRow, hv.1, hv.2]
        intro c hc
        rw [candidateRows, List.filter_cons, hkeep] at hc
        simp only [if_neg Bool.false_ne_true] at hc
        exact ih rows h c hc
      · rw [if_neg hv] at h
        have hkeep : keepRow (⟨s, e, occ⟩ : Cand) = true :=
          (keepRow_iff_occupied _).mpr hv
        intro c hc
        rw [candidateRows, List.filter_cons, hkeep] at hc
        simp only [if_true, List.mem_cons] at hc
        split at h
        · rename_i p1 n1 p2 n2 rest' hp1 hn1 hp2 hn2 hrest
          cases hc with
          | inl hceq =>
              subst hceq
              exact ⟨by simp [hp1], by simp [hn1], by simp [hp2], by simp [hn2]⟩
          | inr hmem => exact ih rest' hrest c hmem
        · exact absurd h (by simp)

theorem normRest_map_fst (g : Int → RoleVals) :
    ∀ (ts : List Int) (prev : Resolved), (normRest g prev ts).map Prod.fst = ts
  | [], _ => rfl
  | t :: ts, prev => by
      rw [normRest]
      simp only [List.map_cons, List.cons.injEq, true_and]
      exact normRest_map_fst g ts _

theorem normalize_map_fst (td : Timetable) (tl : List (Int × Resolved))
    (h : timetable_normalize td = some tl) :
    tl.map Prod.fst = sortKeys (tdKeys td) := by
  unfold timetable_normalize at h
  revert h
  generalize sortKeys (tdKeys td) = ks
  intro h
  cases ks with
  | nil =>
      have h' : some ([] : List (Int × Resolved)) = some tl := h
      injection h' with h2
      subst h2
      rfl
  | cons t ts =>
      rw [normAux] at h
      split at h
      · rename_i p s hp hs
        injection h with h2
        subst h2
        simp only [List.map_cons, List.cons.injEq, true_and]
        exact normRest_map_fst _ ts _
      · exact absurd h (by simp)

/-! ### Lemmas about the timetable builder -/

theorem ovr_some (v : Option Nat) (g : Option (Option Nat)) : ovr (some v) g = some v := rfl

theorem ovr_none (g : Option (Option Nat)) : ovr none g = g := rfl

theorem ovr_assoc (a b c : Option (Option Nat)) : ovr a (ovr b c) = ovr (ovr a b) c := by
  cases a <;> rfl

theorem ovr_none_right (a : Option (Option Nat)) : ovr a none = a := by
  cases a <;> rfl

theorem getRole_nil (t : Int) (r : Role) : getRole [] t r = none := by
  cases r <;> rfl

theorem setRole_getRole (v : RoleVals) (r r' : Role) (x : Option Nat) :
    (v.setRole r x).getRole r' = if r' = r then some x else v.getRole r' := by
  cases r <;> cases r' <;> simp [RoleVals.setRole, RoleVals.getRole]

theorem getRole_cons (a : Int) (v : RoleVals) (rest : Timetable) (t : Int) (r : Role) :
    getRole ((a, v) :: rest) t r = if a = t then v.getRole r else getRole rest t r := by
  show (tdGet ((a, v) :: rest) t).getRole r = _
  rw [show tdGet ((a, v) :: rest) t = if a = t then v else tdGet rest t from rfl]
  by_cases h : a = t
  · rw [if_pos h, if_pos h]
  · rw [if_neg h, if_neg h]
    rfl

theorem tdUpdate_getRole (t : Int) (r : Role) (x : Option Nat) :
    ∀ (td : Timetable) (t' : Int) (r' : Role),
      getRole (tdUpdate t r x td) t' r' =
        if t' = t ∧ r' = r then some x else getRole td t' r'
  | [], t', r' => by
      show getRole [(t, RoleVals.setRole ⟨none, none⟩ r x)] t' r' = _
      rw [getRole_cons, getRole_nil]
      by_cases h1 : t = t'
      · rw [if_pos h1, setRole_getRole]
        by_cases h2 : r' = r
        · rw [if_pos h2, if_pos ⟨h1.symm, h2⟩]
        · rw [if_neg h2, if_neg (fun hh : t' = t ∧ r' = r => h2 hh.2)]
          cases r' <;> rfl
      · rw [if_neg h1, if_neg (fun hh : t' = t ∧ r' = r => h1 hh.1.symm)]
  | (a, v) :: rest, t', r' => by
      show getRole (if a = t then (a, v.setRole r x) :: rest else (a, v) :: tdUpdate t r x rest)
            t' r' = _
      by_cases ha : a = t
      · rw [if_pos ha, getRole_cons, getRole_cons]
        by_cases ha' : a = t'
        · rw [if_pos ha', if_pos ha', setRole_getRole]
          have ht : t' = t := ha ▸ ha'.symm
          by_cases h2 : r' = r
          · rw [if_pos h2, if_pos ⟨ht, h2⟩]
          · rw [if_neg h2, if_neg (fun hh : t' = t ∧ r' = r => h2 hh.2)]
        · rw [if_neg ha', if_neg ha']
          have ht : ¬ t' = t := fun hh => ha' (ha.symm ▸ hh.symm : a = t')
          rw [if_neg (fun hh : t' = t ∧ r' = r => ht hh.1)]
      · rw [if_neg ha, getRole_cons, getRole_cons]
        by_cases ha' : a = t'
        · rw [if_pos ha', if_pos ha']
          have ht : ¬ t' = t := fun hh => ha (ha' ▸ hh : a = t)
          rw [if_neg (fun hh : t' = t ∧ r' = r => ht hh.1)]
        · rw [if_neg ha', if_neg ha']
          exact tdUpdate_getRole t r x rest t' r'

theorem applyOncall_getRole (td : Timetable) (oc : Oncall) (t : Int) (r : Role) :
    getRole (applyOncall td oc) t r = ovr (ocWrite oc t r) (getRole td t r) := by
  unfold applyOncall ocWrite
  cases hrm : roles_map oc.escalation_level with
  | none => rfl
  | some r0 =>
      dsimp only
      rw [tdUpdate_getRole, tdUpdate_getRole]
      by_cases h1 : r0 = r
      · subst h1
        by_cases h2 : oc.end_ = t
        · rw [if_pos ⟨h2.symm, rfl⟩, if_pos rfl, if_pos h2, ovr_some]
        · rw [if_neg (fun hh : t = oc.end_ ∧ r0 = r0 => h2 hh.1.symm), if_pos rfl,
            if_neg h2]
          by_cases h3 : oc.start = t
          · rw [if_pos ⟨h3.symm, rfl⟩, if_pos h3, ovr_some]
          · rw [if_neg (fun hh : t = oc.start ∧ r0 = r0 => h3 hh.1.symm), if_neg h3, ovr_none]
      · rw [if_neg (fun hh : t = oc.end_ ∧ r = r0 => h1 hh.2.symm),
          if_neg (fun hh : t = oc.start ∧ r = r0 => h1 hh.2.symm), if_neg h1, ovr_none]

theorem build_getRole (t : Int) (r : Role) :
    ∀ (l : List Oncall) (td : Timetable),
      getRole (List.foldl applyOncall td l) t r = ovr (lastW l t r) (getRole td t r)
  | [], td => by rw [List.foldl_nil, lastW, ovr_none]
  | oc :: l, td => by
      rw [List.foldl_cons, build_getRole t r l, applyOncall_getRole, lastW, ovr_assoc]

theorem getRole_oncalls_to_timetable (l : List Oncall) (t : Int) (r : Role) :
    getRole (oncalls_to_timetable l) t r = lastW l t r := by
  unfold oncalls_to_timetable
  rw [build_getRole, getRole_nil, ovr_none_right]

theorem ocWrite_ne_none_of_mem (oc : Oncall) (t : Int) (r : Role) (x : Option Nat)
    (h : (t, r, x) ∈ writesOf oc) : ocWrite oc t r ≠ none := by
  unfold writesOf at h
  unfold ocWrite
  cases hrm : roles_map oc.escalation_level with
  | none => rw [hrm] at h; simp at h
  | some r0 =>
      rw [hrm] at h
      dsimp only at h ⊢
      simp only [List.mem_cons, List.not_mem_nil, or_false, Prod.mk.injEq] at h
      rcases h with ⟨h1, h2, _⟩ | ⟨h1, h2, _⟩
      · subst h1; subst h2
        rw [if_pos rfl]
        by_cases he : oc.end_ = oc.start
        · rw [if_pos he]; simp
        · rw [if_neg he, if_pos rfl]; simp
      · subst h1; subst h2
        rw [if_pos rfl, if_pos rfl]; simp

theorem mem_of_ocWrite (oc : Oncall) (t : Int) (r : Role) (x : Option Nat)
    (h : ocWrite oc t r = some x) : (t, r, x) ∈ writesOf oc := by
  unfold ocWrite at h
  unfold writesOf
  cases hrm : roles_map oc.escalation_level with
  | none => rw [hrm] at h; simp at h
  | some r0 =>
      rw [hrm] at h
      dsimp only at h ⊢
      by_cases h1 : r0 = r
      · rw [if_pos h1] at h
        subst h1
        by_cases h2 : oc.end_ = t
        · rw [if_pos h2] at h
          injection h with h3
          subst h3; subst h2
          simp
        · rw [if_neg h2] at h
          by_cases h3 : oc.start = t
          · rw [if_pos h3] at h
            injection h with h4
            subst h4; subst h3
            simp
          · rw [if_neg h3] at h
            exact absurd h (by simp)
      · rw [if_neg h1] at h
        exact absurd h (by simp)

theorem mem_writes_of_lastW (t : Int) (r : Role) (x : Option Nat) :
    ∀ l : List Oncall, lastW l t r = some x → (t, r, x) ∈ writes l
  | [], h => by rw [lastW] at h; exact absurd h (by simp)
  | oc :: l, h => by
      rw [lastW] at h
      rw [writes, List.mem_append]
      cases hl : lastW l t r with
      | some v =>
          rw [hl, ovr_some] at h
          injection h with h2
          exact Or.inr (h2 ▸ mem_writes_of_lastW t r v l hl)
      | none =>
          rw [hl, ovr_none] at h
          exact Or.inl (mem_of_ocWrite oc t r x h)

theorem lastW_ne_none_of_mem (t : Int) (r : Role) (x : Option Nat) :
    ∀ l : List Oncall, (t, r, x) ∈ writes l → lastW l t r ≠ none
  | [], h => by rw [writes] at h; exact absurd h (by simp)
  | oc :: l, h => by
      rw [writes, List.mem_append] at h
      rw [lastW]
      cases hl : lastW l t r with
      | some v => rw [ovr_some]; simp
      | none =>
          rw [ovr_none]
          cases h with
          | inl hm => exact ocWrite_ne_none_of_mem oc t r x hm
          | inr hm => exact absurd hl (lastW_ne_none_of_mem t r x l hm)

theorem writes_mem_of_perm {l1 l2 : List Oncall} (hp : l1.Perm l2)
    (w : Int × Role × Option Nat) : w ∈ writes l1 ↔ w ∈ writes l2 := by
  induction hp with
  | nil => exact Iff.rfl
  | cons x _ ih => rw [writes, writes, List.mem_append, List.mem_append, ih]
  | swap x y l =>
      rw [writes, writes, writes, writes, List.mem_append, List.mem_append,
        List.mem_append, List.mem_append]
      tauto
  | trans _ _ ih1 ih2 => rw [ih1, ih2]

theorem lastW_eq_of_perm {l1 l2 : List Oncall} (hp : l1.Perm l2) (hnc : NoConflict l1)
    (t : Int) (r : Role) : lastW l1 t r = lastW l2 t r := by
  cases h1 : lastW l1 t r with
  | some x =>
      have hm1 : (t, r, x) ∈ writes l1 := mem_writes_of_lastW t r x l1 h1
      have hm2 : (t, r, x) ∈ writes l2 := (writes_mem_of_perm hp _).mp hm1
      cases h2 : lastW l2 t r with
      | some v =>
          have hv2 : (t, r, v) ∈ writes l2 := mem_writes_of_lastW t r v l2 h2
          have hv1 : (t, r, v) ∈ writes l1 := (writes_mem_of_perm hp _).mpr hv2
          have hxv : x = v := hnc (t, r, x) hm1 (t, r, v) hv1 rfl rfl
          rw [hxv]
      | none => exact absurd h2 (lastW_ne_none_of_mem t r x l2 hm2)
  | none =>
      cases h2 : lastW l2 t r with
      | some v =>
          have hv2 : (t, r, v) ∈ writes l2 := mem_writes_of_lastW t r v l2 h2
          have hv1 : (t, r, v) ∈ writes l1 := (writes_mem_of_perm hp _).mpr hv2
          exact absurd h1 (lastW_ne_none_of_mem t r v l1 hv1)
      | none => rfl

theorem tdKeys_cons (a : Int) (v : RoleVals) (rest : Timetable) :
    tdKeys ((a, v) :: rest) = a :: tdKeys rest := rfl

theorem tdKeys_tdUpdate (t : Int) (r : Role) (x : Option Nat) :
    ∀ (td : Timetable) (t' : Int),
      t' ∈ tdKeys (tdUpdate t r x td) ↔ t' = t ∨ t' ∈ tdKeys td
  | [], t' => by simp [tdUpdate, tdKeys]
  | (a, v) :: rest, t' => by
      rw [show tdUpdate t r x ((a, v) :: rest) =
        if a = t then (a, v.setRole r x) :: rest else (a, v) :: tdUpdate t r x rest from rfl]
      by_cases ha : a = t
      · rw [if_pos ha]
        subst ha
        rw [tdKeys_cons, tdKeys_cons]
        simp only [List.mem_cons]
        tauto
      · rw [if_neg ha, tdKeys_cons, tdKeys_cons]
        simp only [List.mem_cons, tdKeys_tdUpdate t r x rest t']
        tauto

theorem tdKeys_nodup_tdUpdate (t : Int) (r : Role) (x : Option Nat) :
    ∀ td : Timetable, (tdKeys td).Nodup → (tdKeys (tdUpdate t r x td)).Nodup
  | [], _ => by simp [tdUpdate, tdKeys]
  | (a, v) :: rest, hnd => by
      rw [tdKeys_cons] at hnd
      rw [show tdUpdate t r x ((a, v) :: rest) =
        if a = t then (a, v.setRole r x) :: rest else (a, v) :: tdUpdate t r x rest from rfl]
      by_cases ha : a = t
      · rw [if_pos ha, tdKeys_cons]
        exact hnd
      · rw [if_neg ha, tdKeys_cons]
        rcases List.nodup_cons.mp hnd with ⟨hna, hnd2⟩
        refine List.nodup_cons.mpr ⟨?_, tdKeys_nodup_tdUpdate t r x rest hnd2⟩
        intro hmem
        rcases (tdKeys_tdUpdate t r x rest a).mp hmem with h | h
        · exact ha h
        · exact hna h

theorem tdKeys_nodup_applyOncall (td : Timetable) (oc : Oncall)
    (h : (tdKeys td).Nodup) : (tdKeys (applyOncall td oc)).Nodup := by
  unfold applyOncall
  cases roles_map oc.escalation_level with
  | none => exact h
  | some r => exact tdKeys_nodup_tdUpdate _ _ _ _ (tdKeys_nodup_tdUpdate _ _ _ _ h)

theorem tdKeys_nodup_build : ∀ (l : List Oncall) (td : Timetable),
    (tdKeys td).Nodup → (tdKeys (l.foldl applyOncall td)).Nodup
  | [], _, h => h
  | oc :: l, td, h => by
      rw [List.foldl_cons]
      exact tdKeys_nodup_build l _ (tdKeys_nodup_applyOncall td oc h)

theorem tdKeys_nodup_oncalls (l : List Oncall) : (tdKeys (oncalls_to_timetable l)).Nodup :=
  tdKeys_nodup_build l [] (by simp [tdKeys])

/-- A timestamp is a key of the dict iff some role holds a written value there
(written values are never erased, only overwritten with other written values). -/
def KeysChar (td : Timetable) : Prop :=
  ∀ t : Int,
    t ∈ tdKeys td ↔
      (getRole td t Role.primary ≠ none ∨ getRole td t Role.secondary ≠ none)

theorem keysChar_nil : KeysChar [] := by
  intro t
  simp [tdKeys, getRole_nil]

theorem keysChar_tdUpdate (t0 : Int) (r : Role) (x : Option Nat) (td : Timetable)
    (h : KeysChar td) : KeysChar (tdUpdate t0 r x td) := by
  intro t
  rw [tdKeys_tdUpdate, tdUpdate_getRole, tdUpdate_getRole]
  by_cases ht : t = t0
  · subst ht
    constructor
    · intro _
      cases r
      · left
        rw [if_pos ⟨rfl, rfl⟩]
        simp
      · right
        rw [if_pos ⟨rfl, rfl⟩]
        simp
    · intro _
      exact Or.inl rfl
  · rw [if_neg (fun hh : t = t0 ∧ Role.primary = r => ht hh.1),
      if_neg (fun hh : t = t0 ∧ Role.secondary = r => ht hh.1)]
    constructor
    · rintro (h1 | h1)
      · exact absurd h1 ht
      · exact (h t).mp h1
    · intro h1
      exact Or.inr ((h t).mpr h1)

theorem keysChar_applyOncall (td : Timetable) (oc : Oncall)
    (h : KeysChar td) : KeysChar (applyOncall td oc) := by
  unfold applyOncall
  cases roles_map oc.escalation_level with
  | none => exact h
  | some r => exact keysChar_tdUpdate _ _ _ _ (keysChar_tdUpdate _ _ _ _ h)

theorem keysChar_build : ∀ (l : List Oncall) (td : Timetable),
    KeysChar td → KeysChar (l.foldl applyOncall td)
  | [], _, h => h
  | oc :: l, td, h => by
      rw [List.foldl_cons]
      exact keysChar_build l _ (keysChar_applyOncall td oc h)

theorem keysChar_oncalls (l : List Oncall) : KeysChar (oncalls_to_timetable l) :=
  keysChar_build l [] keysChar_nil

theorem tdKeys_perm_of_perm {l1 l2 : List Oncall} (hp : l1.Perm l2) (hnc : NoConflict l1) :
    (tdKeys (oncalls_to_timetable l1)).Perm (tdKeys (oncalls_to_timetable l2)) := by
  refine (List.perm_ext_iff_of_nodup (tdKeys_nodup_oncalls l1)
    (tdKeys_nodup_oncalls l2)).mpr ?_
  intro t
  rw [keysChar_oncalls l1 t, keysChar_oncalls l2 t,
    getRole_oncalls_to_timetable, getRole_oncalls_to_timetable,
    getRole_oncalls_to_timetable, getRole_oncalls_to_timetable,
    lastW_eq_of_perm hp hnc t Role.primary, lastW_eq_of_perm hp hnc t Role.secondary]

theorem sortKeys_sorted (l : List Int) : List.Sorted (· ≤ ·) (sortKeys l) :=
  List.sorted_insertionSort _ l

theorem sortKeys_perm (l : List Int) : (sortKeys l).Perm l :=
  List.perm_insertionSort _ l

theorem sortKeys_eq_of_perm {k1 k2 : List Int} (hp : k1.Perm k2) :
    sortKeys k1 = sortKeys k2 :=
  List.eq_of_perm_of_sorted ((sortKeys_perm k1).trans (hp.trans (sortKeys_perm k2).symm))
    (sortKeys_sorted k1) (sortKeys_sorted k2)

theorem tdGet_eq_of_getRole {td1 td2 : Timetable}
    (h : ∀ t r, getRole td1 t r = getRole td2 t r) : tdGet td1 = tdGet td2 := by
  funext t
  have h1 := h t Role.primary
  have h2 := h t Role.secondary
  unfold getRole at h1 h2
  cases hv1 : tdGet td1 t with
  | mk p1 s1 =>
      cases hv2 : tdGet td2 t with
      | mk p2 s2 =>
          rw [hv1, hv2] at h1 h2
          simp only [RoleVals.getRole] at h1 h2
          rw [h1, h2]

/-! ### Claim theorems -/

/-- C1: the spec says a role that is unset at the first (earliest) snapshot
resolves to vacant rather than failing.  The code instead fails: for a single
primary assignment `[0, 10)` by user 7, the earliest snapshot has no
`secondary` key, and the `cnt = 0` iteration of `timetable_normalize` looks it
up in `timetable_list[-1]` — the very record being built — raising
`KeyError: 'secondary'` (modelled as `none`). -/
theorem first_snapshot_unset_role_fails :
    timetable_normalize (oncalls_to_timetable [⟨1, 7, 0, 10⟩]) = none := by decide

/-- C2: Scenario 1 (Primary user 1 over `[0, 2)`, Secondary user 2 over
`[1, 3)`) is claimed to yield exactly three rows; instead the first snapshot
(at 0) has no `secondary` key, `timetable_normalize` raises
`KeyError: 'secondary'`, and `create_schedule` fails for every timezone
conversion and user directory. -/
theorem scenario1_fails (loc : Int → Int) (users : UsersDict) :
    create_schedule loc [⟨1, 1, 0, 2⟩, ⟨2, 2, 1, 3⟩] users = none := rfl

/-- C3 counterexample: two permutations of the same assignment set yield
different resolved Timetables.  With Primary `[0,1)` by user 1, Primary
`[1,2)` by user 2 and Secondary `[0,2)` by user 3, the list order decides
whether the set (user 2) or the clear (end of the first assignment) wins at
timestamp 1, because `oncalls_to_timetable` is last-write-wins in processing
order. -/
theorem builder_order_dependent :
    ([⟨1, 1, 0, 1⟩, ⟨1, 2, 1, 2⟩, ⟨2, 3, 0, 2⟩] : List Oncall).Perm
      ([⟨1, 2, 1, 2⟩, ⟨1, 1, 0, 1⟩, ⟨2, 3, 0, 2⟩] : List Oncall) ∧
    timetable_normalize (oncalls_to_timetable
        [⟨1, 1, 0, 1⟩, ⟨1, 2, 1, 2⟩, ⟨2, 3, 0, 2⟩]) ≠
      timetable_normalize (oncalls_to_timetable
        [⟨1, 2, 1, 2⟩, ⟨1, 1, 0, 1⟩, ⟨2, 3, 0, 2⟩]) :=
  ⟨List.Perm.swap (⟨1, 2, 1, 2⟩ : Oncall) ⟨1, 1, 0, 1⟩ [⟨2, 3, 0, 2⟩], by decide⟩

/-- C3 (amended): the resolved Timetable is independent of the input ordering
for every assignment set in which no two raw events write different values to
the same role at the same timestamp (`NoConflict`); without that proviso the
claim fails (see the counterexample). -/
theorem builder_perm_invariant (l1 l2 : List Oncall) (hp : l1.Perm l2)
    (hnc : NoConflict l1) :
    timetable_normalize (oncalls_to_timetable l1) =
      timetable_normalize (oncalls_to_timetable l2) := by
  have hg : tdGet (oncalls_to_timetable l1) = tdGet (oncalls_to_timetable l2) :=
    tdGet_eq_of_getRole fun t r => by
      rw [getRole_oncalls_to_timetable, getRole_oncalls_to_timetable,
        lastW_eq_of_perm hp hnc]
  have hk : sortKeys (tdKeys (oncalls_to_timetable l1)) =
      sortKeys (tdKeys (oncalls_to_timetable l2)) :=
    sortKeys_eq_of_perm (tdKeys_perm_of_perm hp hnc)
  unfold timetable_normalize
  rw [hg, hk]

/-- C3 witness: the amended theorem at a concrete conflict-free pair of
orderings (Primary `[0,2)` by user 7, Secondary `[1,3)` by user 8, swapped). -/
theorem builder_perm_invariant_witness :
    ([⟨1, 7, 0, 2⟩, ⟨2, 8, 1, 3⟩] : List Oncall).Perm
      ([⟨2, 8, 1, 3⟩, ⟨1, 7, 0, 2⟩] : List Oncall) ∧
    NoConflict [⟨1, 7, 0, 2⟩, ⟨2, 8, 1, 3⟩] ∧
    timetable_normalize (oncalls_to_timetable [⟨1, 7, 0, 2⟩, ⟨2, 8, 1, 3⟩]) =
      timetable_normalize (oncalls_to_timetable [⟨2, 8, 1, 3⟩, ⟨1, 7, 0, 2⟩]) :=
  ⟨List.Perm.swap (⟨2, 8, 1, 3⟩ : Oncall) ⟨1, 7, 0, 2⟩ [], by decide,
   builder_perm_invariant _ _
     (List.Perm.swap (⟨2, 8, 1, 3⟩ : Oncall) ⟨1, 7, 0, 2⟩ []) (by decide)⟩

/-- C4: the clean-handover scenario (Primary `[0,1)` by user 1, then Primary
`[1,2)` by user 2) is claimed to emit exactly two rows with the handover at 1;
instead the first snapshot (at 0) has no `secondary` key and
`timetable_normalize` raises `KeyError: 'secondary'`, so nothing is emitted.
(Moreover "the set wins" is order dependent, see the C3 counterexample.) -/
theorem handover_scenario_fails (loc : Int → Int) (users : UsersDict) :
    create_schedule loc [⟨1, 1, 0, 1⟩, ⟨1, 2, 1, 2⟩] users = none := rfl

/-- C5: whenever normalization succeeds, the candidate rows built from
consecutive resolved snapshots are contiguous — each row's exclusive end
equals the next row's start — and suppression is a plain filter: the kept
rows form a sublist of the candidates with their boundaries untouched. -/
theorem candidate_rows_contiguous (oncalls : List Oncall) (tl : List (Int × Resolved))
    (_h : timetable_normalize (oncalls_to_timetable oncalls) = some tl) :
    List.Chain' (fun a b => a.end_ = b.start) (candidateRows tl) ∧
    ((candidateRows tl).filter keepRow).Sublist (candidateRows tl) :=
  ⟨candidateRows_chain tl, List.filter_sublist _⟩

/-- C5 witness: the theorem at the normalized output of Primary and Secondary
both spanning `[0, 2)`. -/
theorem candidate_rows_contiguous_witness :
    List.Chain' (fun a b => a.end_ = b.start)
      (candidateRows [(0, ⟨some 7, some 8⟩), (2, ⟨none, none⟩)]) ∧
    ((candidateRows [(0, ⟨some 7, some 8⟩), (2, ⟨none, none⟩)]).filter keepRow).Sublist
      (candidateRows [(0, ⟨some 7, some 8⟩), (2, ⟨none, none⟩)]) :=
  candidate_rows_contiguous [⟨1, 7, 0, 2⟩, ⟨2, 8, 0, 2⟩]
    [(0, ⟨some 7, some 8⟩), (2, ⟨none, none⟩)] (by decide)

/-- C6: whenever the pipeline completes, the emitted rows correspond
one-to-one and in order to exactly those candidate rows with at least one
occupied role: a candidate is excluded precisely when both occupants are
vacant, and every other candidate is kept. -/
theorem suppression_exact (loc : Int → Int) (oncalls : List Oncall) (users : UsersDict)
    (tl : List (Int × Resolved)) (rows : List Row)
    (hn : timetable_normalize (oncalls_to_timetable oncalls) = some tl)
    (hc : create_schedule loc oncalls users = some rows) :
    List.Forall₂ (fun c r => Occupied c ∧ r.start_local = loc c.start)
      ((candidateRows tl).filter keepRow) rows := by
  have he : emitRows loc users tl = some rows := by
    unfold create_schedule at hc
    rw [hn] at hc
    exact hc
  have h2 := emitRows_forall2 loc users tl rows he
  have h3 := forall2_and_of_mem h2
    (fun c hcm => (keepRow_iff_occupied c).mp (List.of_mem_filter hcm))
  exact List.Forall₂.imp (fun a b hab => ⟨hab.1, hab.2.1⟩) h3

/-- C6 witness: the theorem at a concrete successful run (one kept row). -/
theorem suppression_exact_witness :
    List.Forall₂
      (fun (c : Cand) (r : Row) => Occupied c ∧ r.start_local = (fun t : Int => t + 60) c.start)
      ((candidateRows [(0, ⟨some 7, some 8⟩), (2, ⟨none, none⟩)]).filter keepRow)
      ([⟨60, 61, "0049111", "alice", "0049222", "bob"⟩] : List Row) :=
  suppression_exact (fun t => t + 60) [⟨1, 7, 0, 2⟩, ⟨2, 8, 0, 2⟩]
    [(7, ⟨[⟨"phone_contact_method", "49", "111"⟩], "alice"⟩),
     (8, ⟨[⟨"phone_contact_method", "49", "222"⟩], "bob"⟩)]
    _ _ (by decide) (by decide)

/-- C7: the spec says an assignment with `start == end` must not crash the
pipeline; for the single zero-width primary assignment `[5, 5]` by user 7 the
set at 5 is immediately overwritten by the clear at 5, the sole snapshot lacks
a `secondary` key, and `timetable_normalize` raises `KeyError: 'secondary'`
(modelled as `none`), for every timezone conversion and user directory. -/
theorem zero_width_assignment_fails (loc : Int → Int) (users : UsersDict) :
    create_schedule loc [⟨1, 7, 5, 5⟩] users = none := rfl

/-- C8: for each surviving row, the displayed end is the row's exclusive end
boundary decremented by one second and then converted (`loc (end - 1)`),
the displayed start is the start boundary converted with no decrement
(`loc start`), and the internal snapshot timestamps are exactly the sorted
event instants, with no unit subtracted. -/
theorem display_end_minus_one_second (loc : Int → Int) (oncalls : List Oncall)
    (users : UsersDict) (tl : List (Int × Resolved)) (rows : List Row)
    (hn : timetable_normalize (oncalls_to_timetable oncalls) = some tl)
    (hc : create_schedule loc oncalls users = some rows) :
    List.Forall₂ (fun c r => r.start_local = loc c.start ∧ r.end_local = loc (c.end_ - 1))
      ((candidateRows tl).filter keepRow) rows ∧
    tl.map Prod.fst = sortKeys (tdKeys (oncalls_to_timetable oncalls)) := by
  have he : emitRows loc users tl = some rows := by
    unfold create_schedule at hc
    rw [hn] at hc
    exact hc
  exact ⟨emitRows_forall2 loc users tl rows he, normalize_map_fst _ tl hn⟩

/-- C8 witness: the theorem at a concrete successful run — display end
`(20 - 1) + 5 = 24`, display start `10 + 5 = 15`, internal boundaries `[10, 20]`. -/
theorem display_end_minus_one_second_witness :
    (List.Forall₂
      (fun (c : Cand) (r : Row) => r.start_local = (fun t : Int => t + 5) c.start ∧
        r.end_local = (fun t : Int => t + 5) (c.end_ - 1))
      ((candidateRows [(10, ⟨some 4, some 5⟩), (20, ⟨none, none⟩)]).filter keepRow)
      ([⟨15, 24, "0033777", "carol", "0033888", "dave"⟩] : List Row)) ∧
    ([(10, (⟨some 4, some 5⟩ : Resolved)), (20, ⟨none, none⟩)].map Prod.fst =
      sortKeys (tdKeys (oncalls_to_timetable [⟨1, 4, 10, 20⟩, ⟨2, 5, 10, 20⟩]))) :=
  display_end_minus_one_second (fun t => t + 5) [⟨1, 4, 10, 20⟩, ⟨2, 5, 10, 20⟩]
    [(4, ⟨[⟨"phone_contact_method", "33", "777"⟩], "carol"⟩),
     (5, ⟨[⟨"phone_contact_method", "33", "888"⟩], "dave"⟩)]
    _ _ (by decide) (by decide)

/-- C9 counterexample: an unknown user id in the second row makes
`create_schedule` fail as a whole — not a per-row error — even though the
first row's user (id 1) resolves fine, so no "remaining rows" survive.
(User 3 holds Primary `[2,4)` but is absent from the user directory.) -/
theorem unknown_user_aborts_schedule :
    create_schedule (fun t => t)
      [⟨1, 1, 0, 2⟩, ⟨2, 2, 0, 4⟩, ⟨1, 3, 2, 4⟩]
      [(1, ⟨[⟨"phone_contact_method", "49", "111"⟩], "alice"⟩),
       (2, ⟨[⟨"phone_contact_method", "49", "222"⟩], "bob"⟩)] = none ∧
    get_phone [(1, ⟨[⟨"phone_contact_method", "49", "111"⟩], "alice"⟩),
       (2, ⟨[⟨"phone_contact_method", "49", "222"⟩], "bob"⟩)] (some 1) ≠ none :=
  ⟨by decide, by decide⟩

/-- C9 (amended): a user id that the directory cannot resolve is fatal to the
emitter, not a per-row error: equivalently, whenever `create_schedule`
succeeds, every kept candidate row's occupants resolve to a phone and a name
in the user directory. -/
theorem unknown_user_fatal (loc : Int → Int) (oncalls : List Oncall) (users : UsersDict)
    (tl : List (Int × Resolved)) (rows : List Row)
    (hn : timetable_normalize (oncalls_to_timetable oncalls) = some tl)
    (hc : create_schedule loc oncalls users = some rows) :
    ∀ c ∈ (candidateRows tl).filter keepRow,
      get_phone users c.occ.primary ≠ none ∧ get_username users c.occ.primary ≠ none ∧
      get_phone users c.occ.secondary ≠ none ∧ get_username users c.occ.secondary ≠ none := by
  have he : emitRows loc users tl = some rows := by
    unfold create_schedule at hc
    rw [hn] at hc
    exact hc
  exact emitRows_lookups loc users tl rows he

/-- C9 witness: the amended theorem at a concrete successful run. -/
theorem unknown_user_fatal_witness :
    get_phone [(11, ⟨[⟨"phone_contact_method", "1", "5"⟩], "eve"⟩),
        (12, ⟨[⟨"phone_contact_method", "1", "6"⟩], "mallory"⟩)] (some 11) ≠ none ∧
    get_username [(11, ⟨[⟨"phone_contact_method", "1", "5"⟩], "eve"⟩),
        (12, ⟨[⟨"phone_contact_method", "1", "6"⟩], "mallory"⟩)] (some 11) ≠ none ∧
    get_phone [(11, ⟨[⟨"phone_contact_method", "1", "5"⟩], "eve"⟩),
        (12, ⟨[⟨"phone_contact_method", "1", "6"⟩], "mallory"⟩)] (some 12) ≠ none ∧
    get_username [(11, ⟨[⟨"phone_contact_method", "1", "5"⟩], "eve"⟩),
        (12, ⟨[⟨"phone_contact_method", "1", "6"⟩], "mallory"⟩)] (some 12) ≠ none :=
  unknown_user_fatal (fun t => t) [⟨1, 11, 0, 3⟩, ⟨2, 12, 0, 3⟩]
    [(11, ⟨[⟨"phone_contact_method", "1", "5"⟩], "eve"⟩),
     (12, ⟨[⟨"phone_contact_method", "1", "6"⟩], "mallory"⟩)]
    [(0, ⟨some 11, some 12⟩), (3, ⟨none, none⟩)]
    [⟨0, 2, "0015", "eve", "0016", "mallory"⟩]
    (by decide) (by decide) ⟨0, 3, ⟨some 11, some 12⟩⟩ (by decide)

/-- C10: no assignments at all → the pipeline succeeds with an empty row
output, for every timezone conversion and user directory. -/
theorem empty_input_empty_schedule (loc : Int → Int) (users : UsersDict) :
    create_schedule loc [] users = some [] := rfl
